import Mathlib

/-!
Verification development for the gotenberg-client repository.

The core under verification is the fluent HTTP request builder with
deferred-error chaining and buffer-pooled multipart streaming:

- namespace `HC` embeds `src/httpclient.go` (type `Request` and its chain
  methods `Multipart`, `Header`, `Headers`, `QueryParam`, `QueryParams`,
  `QueryValues`, `Body`, `BytesBody`, `StringBody`, `JSONBody`, `File`,
  `FormField`, and the terminal `Send`), together with the pieces of the
  Go standard library those methods rely on (`http.Header.Set` key
  canonicalisation, `url.Values` operations and encoding,
  `mime/multipart.Writer` part encoding, `sync.Pool` of byte slices,
  `io.CopyBuffer` chunked copying).
- namespace `CC` embeds the reusable-builder variant from `src/config.go`
  (type `Client` with `Reset` and a deferred `Reset` inside `Send`).
- namespace `GB` embeds the wrapper from `src/gotenberg.go`; its underlying
  builder (the external github.com/nativebpm/http-client `Multipart` type)
  is not part of this repository's sources and is modelled from the spec.

Go byte strings are modelled as Lean `String` (byte counts via
`String.utf8ByteSize`); byte slices used as pool scratch buffers are
modelled as a backing `List Nat` plus an explicit length, so that slice
truncation (`buf[:0]`) and re-extension (`buf[:cap(buf)]`) are faithful.
Errors are an inductive `GoErr`, with `fmt.Errorf("...: %w", err)`
wrapping modelled by the `wrap` constructor.
-/

namespace Gotenberg

/-- Errors produced and wrapped by the builder, comparable as values.
`wrap note cause` models fmt.Errorf with a message and a wrapped cause. -/
inductive GoErr where
  | readFailure (msg : String)
  | marshalFailure (msg : String)
  | transportFailure (msg : String)
  | wrap (note : String) (cause : GoErr)
deriving DecidableEq, Repr

/-- The quotation-mark character, written via its code point. -/
def quoteChar : Char := Char.ofNat 34

/-- The backslash character, written via its code point. -/
def backslashChar : Char := Char.ofNat 92

/-! ### Association-list operations used to model Go maps

`http.Header` is `map[string][]string`; every header write in this code
goes through `Header.Set`, which stores a single value, so the header
collection is modelled as an association list of key/value pairs with
unique keys.  `setKV` is `Set` (replace if present, else append), and
`lookupKV` is `Get`/indexing. -/

/-- Look up a key in an association list (Go map indexing). -/
def lookupKV : List (String × String) → String → Option String
  | [], _ => none
  | (k, v) :: t, q => if k = q then some v else lookupKV t q

/-- Replace the value stored at a key, or append the pair if absent
(the semantics of a Go map assignment m[k] = v). -/
def setKV : List (String × String) → String → String → List (String × String)
  | [], k, v => [(k, v)]
  | (k', v') :: t, k, v => if k' = k then (k, v) :: t else (k', v') :: setKV t k v

/-! ### textproto.CanonicalMIMEHeaderKey

`http.Header.Set` canonicalises its key: if every byte is a valid header
field byte, the first letter and every letter following a hyphen is
upper-cased and every other letter lower-cased; otherwise the key is
returned unchanged. -/

/-- Valid header field bytes per Go's textproto `isTokenTable`:
digits, letters, and the RFC 7230 token specials. -/
def validHeaderFieldChar (c : Char) : Bool :=
  c.isDigit || c.isUpper || c.isLower ||
    [33, 35, 36, 37, 38, 39, 42, 43, 45, 46, 94, 95, 96, 124, 126].contains c.toNat

/-- Case-normalisation pass of `CanonicalMIMEHeaderKey`: `upper` records
whether the previous byte was a hyphen (or the start of the key). -/
def canonicalizeChars : Bool → List Char → List Char
  | _, [] => []
  | upper, c :: t =>
    let c' := if upper then c.toUpper else c.toLower
    c' :: canonicalizeChars (c' = '-') t

/-- Go's `textproto.CanonicalMIMEHeaderKey`. -/
def canonicalMIMEHeaderKey (s : String) : String :=
  if s.toList.all validHeaderFieldChar then String.mk (canonicalizeChars true s.toList)
  else s

/-- `http.Header.Set key value`: store a single value under the
canonicalised key. -/
def headerSet (h : List (String × String)) (key value : String) : List (String × String) :=
  setKV h (canonicalMIMEHeaderKey key) value

/-! ### url.Values

`url.Values` is `map[string][]string`.  It is modelled as an association
list from keys to value lists; `valsAdd` appends an entry for absent keys,
so keys stay unique and appear in first-insertion order, which is what
parsing a query string produces. -/

/-- The multi-valued query map. -/
def Vals := List (String × List String)

/-- Value list stored under a key (empty when absent). -/
def lookupVals : List (String × List String) → String → List String
  | [], _ => []
  | (k, lv) :: t, q => if k = q then lv else lookupVals t q

/-- `url.Values.Set`: replace the whole value list by a singleton. -/
def valsSet : List (String × List String) → String → String → List (String × List String)
  | [], k, v => [(k, [v])]
  | (k', lv) :: t, k, v => if k' = k then (k, [v]) :: t else (k', lv) :: valsSet t k v

/-- `url.Values.Add`: append one value to the list stored at the key. -/
def valsAdd : List (String × List String) → String → String → List (String × List String)
  | [], k, v => [(k, [v])]
  | (k', lv) :: t, k, v => if k' = k then (k, lv ++ [v]) :: t else (k', lv) :: valsAdd t k v

/-- `url.Values.Del`: remove the key entirely. -/
def valsDel : List (String × List String) → String → List (String × List String)
  | [], _ => []
  | (k', lv) :: t, k => if k' = k then valsDel t k else (k', lv) :: valsDel t k

/-- `url.Values.Get`: first stored value, or the empty string. -/
def valsGet (vals : List (String × List String)) (k : String) : String :=
  (lookupVals vals k).headD ""

/-- `url.Values.Encode` sorts the keys and emits each key's values in
order.  The query string is modelled at the key/value level (the
percent-encoding of individual characters carries no information the
claims depend on), so `Encode` produces the flat ordered pair list. -/
def encodeVals (q : List (String × List String)) : List (String × String) :=
  (List.insertionSort (fun a b => a ≤ b) (q.map Prod.fst)).flatMap
    (fun k => (lookupVals q k).map (fun v => (k, v)))

/-- `url.ParseQuery` of an encoded pair list: append each pair in order,
grouping values under their key (`m[k] = append(m[k], v)`). -/
def parseQuery (pairs : List (String × String)) : List (String × List String) :=
  pairs.foldl (fun q p => valsAdd q p.1 p.2) []

/-! ### The buffer pool (sync.Pool of *[]byte)

A pooled slice is a backing array plus an explicit length; `buf[:0]`
truncates the length keeping the backing array, and `buf[:cap(buf)]`
re-extends the length to the capacity.  The observable contents of a
slice are `backing.take len`. -/

/-- Default scratch-buffer capacity (1 << 12 bytes). -/
def bufferSize : Nat := 4096

/-- A Go byte slice: backing array (capacity = backing.length) and length. -/
structure GoSlice where
  backing : List Nat
  len : Nat
deriving DecidableEq, Repr

/-- Observable contents of a slice. -/
def GoSlice.view (b : GoSlice) : List Nat := b.backing.take b.len

/-- `bufferPool.Get()`: pop a pooled buffer, or allocate a fresh
`make([]byte, 0, bufferSize)` (zeroed backing, zero length) when the
free list is empty.  The free list is modelled as a stack; no claim
depends on which pooled buffer is returned. -/
def poolGet : List GoSlice → GoSlice × List GoSlice
  | [] => (⟨List.replicate bufferSize 0, 0⟩, [])
  | b :: rest => (b, rest)

/-- One `io.CopyBuffer` read overwrites a prefix of the scratch backing
array with the chunk just read. -/
def overwriteChunk (backing chunk : List Nat) : List Nat :=
  chunk ++ backing.drop chunk.length

/-- `io.CopyBuffer` moves `content` through the scratch buffer in chunks
of at most `capN` bytes; the scratch backing array retains the last chunk
written over whatever was there before.  `fuel` bounds the recursion and
is instantiated with `content.length`, which suffices whenever the chunk
size is positive (Go panics on an empty copy buffer). -/
def copyLoop (capN : Nat) : Nat → List Nat → List Nat → List Nat
  | 0, _, backing => backing
  | _ + 1, [], backing => backing
  | fuel + 1, c :: cs, backing =>
    copyLoop capN fuel ((c :: cs).drop capN) (overwriteChunk backing ((c :: cs).take capN))

/-- Bytes of a content string, one number per character (file payloads in
the claims are ASCII, so characters and bytes coincide). -/
def strBytes (s : String) : List Nat := s.toList.map Char.toNat

/-! ### mime/multipart.Writer

The writer is bound to a `bytes.Buffer` sink, modelled as the `String` of
bytes written so far.  `started` records whether a part has been created
(`w.lastpart != nil`), which decides whether a CRLF precedes the next
boundary line.  Writes to a `bytes.Buffer` cannot fail, so part creation
and `Close` are infallible here, exactly as in the embedded code paths. -/

/-- Multipart writer state: the boundary token fixed at creation, and
whether a part has been created yet. -/
structure Writer where
  boundary : String
  started : Bool
deriving DecidableEq, Repr

/-- Go's `escapeQuotes`: backslash-escape quotation marks and backslashes
in field names and file names. -/
def escapeQuotes (s : String) : String :=
  String.mk (s.toList.flatMap fun c =>
    if c = backslashChar then [backslashChar, backslashChar]
    else if c = quoteChar then [backslashChar, quoteChar]
    else [c])

/-- Boundary-plus-header bytes `CreatePart` emits before a form-field
part's content (header keys are emitted in sorted order). -/
def fieldPartHeader (b : String) (started : Bool) (field : String) : String :=
  (if started then "\r\n--" ++ b ++ "\r\n" else "--" ++ b ++ "\r\n") ++
    "Content-Disposition: form-data; name=\"" ++ escapeQuotes field ++ "\"\r\n\r\n"

/-- Boundary-plus-header bytes `CreateFormFile` emits before a file
part's content. -/
def filePartHeader (b : String) (started : Bool) (field filename : String) : String :=
  (if started then "\r\n--" ++ b ++ "\r\n" else "--" ++ b ++ "\r\n") ++
    "Content-Disposition: form-data; name=\"" ++ escapeQuotes field ++
    "\"; filename=\"" ++ escapeQuotes filename ++ "\"\r\n" ++
    "Content-Type: application/octet-stream\r\n\r\n"

/-- `Writer.Close` appends the terminating boundary line. -/
def closedBody (b : String) (buf : String) : String :=
  buf ++ "\r\n--" ++ b ++ "--\r\n"

/-- `Writer.FormDataContentType`: the boundary-qualified content type,
quoting the boundary when it contains tspecial characters. -/
def formDataContentType (b : String) : String :=
  if b.toList.any (fun c =>
      ['(', ')', '<', '>', '@', ',', ';', ':', backslashChar, quoteChar,
        '/', '[', ']', '?', '=', ' '].contains c) then
    "multipart/form-data; boundary=\"" ++ b ++ "\""
  else
    "multipart/form-data; boundary=" ++ b

/-- Header-name and content-type constants from httpclient.go. -/
def ApplicationJSON : String := "application/json"

/-- The Content-Type header key constant. -/
def ContentType : String := "Content-Type"

/-- The Content-Length header key constant. -/
def ContentLength : String := "Content-Length"

/-! ## The request builder of src/httpclient.go

`HC.Request` is the mutable state reachable through one builder chain:
the prepared http.Request's header collection, query pairs and body, the
multipart flag, writer and sink buffer, the deferred error slot, and the
free list of the package-level `bufferPool` (the only state outside the
Request that chain calls touch).  Each Go method becomes a function
`Request → ... → Request`; every one of them starts with the
`if r.err != nil` guard exactly as in the source. -/

namespace HC

/-- The body attached to the outgoing request: a raw byte body
(`BytesBody`/`StringBody`/`JSONBody`), an opaque caller-supplied stream
(`Body`), or the multipart buffer attached by `Send`. -/
inductive BodySrc where
  | bytes (data : String)
  | stream (tag : Nat)
  | multipartBuf (data : String)
deriving DecidableEq, Repr

/-- Builder state for httpclient.go's `Request`, together with the
package-level buffer pool's free list. -/
structure Request where
  headers : List (String × String)
  rawQuery : List (String × String)
  body : Option BodySrc
  multipart : Bool
  writer : Option Gotenberg.Writer
  buffer : Option String
  err : Option GoErr
  pool : List GoSlice
deriving DecidableEq, Repr

/-- The state produced by the `Method*` constructors on a well-formed
base URL: empty header map, no body, no multipart state, no deferred
error (the path-derived query is irrelevant to the claims and arbitrary
initial states are quantified over in the theorems). -/
def mkRequest (err0 : Option GoErr) : Request :=
  ⟨[], [], none, false, none, none, err0, []⟩

/-- `Request.Multipart`: allocate the sink buffer and the writer with the
generated boundary `bnd` and set the flag, unless already enabled.  The
boundary token is drawn at writer creation from a random source, so it is
a parameter of the model. -/
def Request.Multipart (bnd : String) (r : Request) : Request :=
  if r.err.isSome then r
  else if r.multipart then r
  else { r with buffer := some "", writer := some ⟨bnd, false⟩, multipart := true }

/-- `Request.Header`: `r.request.Header.Set(key, value)`. -/
def Request.Header (r : Request) (key value : String) : Request :=
  if r.err.isSome then r
  else { r with headers := headerSet r.headers key value }

/-- `Request.Headers`: one `Header` call per map entry; the Go map's
iteration order corresponds to the order of the list supplied here. -/
def Request.Headers (r : Request) (hs : List (String × String)) : Request :=
  if r.err.isSome then r
  else hs.foldl (fun t p => t.Header p.1 p.2) r

/-- `Request.QueryParam`: parse the current query, `Set` the key,
re-encode. -/
def Request.QueryParam (r : Request) (key value : String) : Request :=
  if r.err.isSome then r
  else { r with rawQuery := encodeVals (valsSet (parseQuery r.rawQuery) key value) }

/-- `Request.QueryParams`: parse once, `Set` every entry, re-encode. -/
def Request.QueryParams (r : Request) (ps : List (String × String)) : Request :=
  if r.err.isSome then r
  else
    let q1 := ps.foldl (fun q p => valsSet q p.1 p.2) (parseQuery r.rawQuery)
    { r with rawQuery := encodeVals q1 }

/-- One iteration of the `QueryValues` loop: delete the key when the
incoming value set's `Get` yields the empty string, otherwise `Add` it. -/
def qvStep (q : List (String × List String)) (e : String × List String) :
    List (String × List String) :=
  if e.2.headD "" = "" then valsDel q e.1 else valsAdd q e.1 (e.2.headD "")

/-- `Request.QueryValues`: fold the removal-or-add step over the incoming
value set and re-encode. -/
def Request.QueryValues (r : Request) (vals : List (String × List String)) : Request :=
  if r.err.isSome then r
  else { r with rawQuery := encodeVals (vals.foldl qvStep (parseQuery r.rawQuery)) }

/-- `Request.Body`: attach a caller-supplied stream (the previous body,
if any, is closed first; closing carries no state the claims observe). -/
def Request.BodyStream (r : Request) (tag : Nat) : Request :=
  if r.err.isSome then r
  else { r with body := some (.stream tag) }

/-- `Request.BytesBody`: attach the bytes and set Content-Length to the
byte count. -/
def Request.BytesBody (r : Request) (data : String) : Request :=
  if r.err.isSome then r
  else ({ r with body := some (.bytes data) }).Header ContentLength (toString data.utf8ByteSize)

/-- `Request.StringBody` delegates to `BytesBody`. -/
def Request.StringBody (r : Request) (data : String) : Request :=
  r.BytesBody data

/-- `Request.JSONBody`: the external `json.Marshal` outcome for the given
value is the `marshalled` argument; failure is wrapped into the deferred
error, success flows through `BytesBody` and the JSON content type. -/
def Request.JSONBody (r : Request) (marshalled : Except String String) : Request :=
  if r.err.isSome then r
  else
    match marshalled with
    | .error msg => { r with err := some (.wrap "failed to marshal JSON" (.marshalFailure msg)) }
    | .ok data => ((r.BytesBody data).Header ContentType ApplicationJSON)

/-- `Request.File`: enable multipart if needed, create the file part
(`CreateFormFile` writes the boundary and part headers into the sink at
once), then stream the content through a pooled scratch buffer with
`io.CopyBuffer`.  The reader is modelled as the bytes it yields plus an
optional error after them; the deferred release (`buf = buf[:0];
bufferPool.Put(&buf)`, guarded by `len(buf) > 0`) runs whether or not the
copy failed. -/
def Request.File (bnd : String) (r : Request) (field filename data : String)
    (readErr : Option GoErr) : Request :=
  if r.err.isSome then r
  else
    let r := if r.multipart then r else r.Multipart bnd
    match r.writer, r.buffer with
    | some w, some buf =>
      let hdr := filePartHeader w.boundary w.started field filename
      let acq := poolGet r.pool
      let scratch : GoSlice := { acq.1 with len := acq.1.backing.length }
      let backing1 := copyLoop scratch.len (strBytes data).length (strBytes data) scratch.backing
      let pool1 := if scratch.len > 0 then (⟨backing1, 0⟩ : GoSlice) :: acq.2 else acq.2
      let r1 := { r with buffer := some (buf ++ hdr ++ data),
                         writer := some { w with started := true },
                         pool := pool1 }
      match readErr with
      | some e => { r1 with err := some (.wrap "failed to copy file content" e) }
      | none => r1
    | _, _ => r

/-- `Request.FormField`: enable multipart if needed and write a field
part (`WriteField`, which cannot fail against the buffer sink). -/
def Request.FormField (bnd : String) (r : Request) (field value : String) : Request :=
  if r.err.isSome then r
  else
    let r := if r.multipart then r else r.Multipart bnd
    match r.writer, r.buffer with
    | some w, some buf =>
      { r with buffer := some (buf ++ fieldPartHeader w.boundary w.started field ++ value),
               writer := some { w with started := true } }
    | _, _ => r

deriving instance DecidableEq for Except

/-- The chain calls of httpclient.go as syntax, so that whole call
sequences can be quantified over. -/
inductive Call where
  | multipart
  | header (key value : String)
  | headers (hs : List (String × String))
  | contentType (ct : String)
  | jsonContentType
  | queryParam (key value : String)
  | queryParams (ps : List (String × String))
  | queryValues (vals : List (String × List String))
  | bodyStream (tag : Nat)
  | bytesBody (data : String)
  | stringBody (data : String)
  | jsonBody (marshalled : Except String String)
  | file (field filename data : String) (readErr : Option GoErr)
  | formField (field value : String)
deriving DecidableEq, Repr

/-- Dispatch one chain call to the corresponding method.  `ContentType`
and `JSONContentType` are the source's one-line delegations to
`Header`. -/
def Request.applyCall (bnd : String) (r : Request) : Call → Request
  | .multipart => r.Multipart bnd
  | .header k v => r.Header k v
  | .headers hs => r.Headers hs
  | .contentType ct => r.Header ContentType ct
  | .jsonContentType => r.Header ContentType ApplicationJSON
  | .queryParam k v => r.QueryParam k v
  | .queryParams ps => r.QueryParams ps
  | .queryValues vals => r.QueryValues vals
  | .bodyStream tag => r.BodyStream tag
  | .bytesBody d => r.BytesBody d
  | .stringBody d => r.StringBody d
  | .jsonBody m => r.JSONBody m
  | .file f n d e => r.File bnd f n d e
  | .formField f v => r.FormField bnd f v

/-- Apply a sequence of chain calls in order. -/
def applyChain (bnd : String) (cs : List Call) (r : Request) : Request :=
  cs.foldl (Request.applyCall bnd) r

/-- `Writer.Close` against the `bytes.Buffer` sink: append the trailing
boundary.  Writes to a `bytes.Buffer` cannot fail, so the close always
succeeds, matching the code path embedded here; the error branch of
`Send` that wraps a close failure is retained in `requestSend` below. -/
def closeWriter (buf : String) (w : Gotenberg.Writer) : Except GoErr String :=
  .ok (closedBody w.boundary buf)

/-- The multipart finalisation block of `Send`: when multipart is active
(and writer and buffer are non-nil), close the writer, attach the closed
buffer as the body, and set Content-Type to the writer's boundary
qualified value and Content-Length to the closed buffer's byte count. -/
def sendFinalize (r : Request) : Except GoErr Request :=
  if r.multipart ∧ r.writer.isSome ∧ r.buffer.isSome then
    match r.writer, r.buffer with
    | some w, some buf =>
      match closeWriter buf w with
      | .error e => .error (.wrap "failed to close multipart writer" e)
      | .ok closed =>
        .ok (({ r with body := some (.multipartBuf closed), buffer := some closed
              }.Header ContentType (formDataContentType w.boundary)
              ).Header ContentLength (toString closed.utf8ByteSize))
    | _, _ => .ok r
  else .ok r

/-- The request the multipart block of `Send` produces: body and buffer
replaced by the closed body, then Content-Type and Content-Length set
(an unfolding of `sendFinalize`'s success value, named for reuse in
statements). -/
def finalizedOf (r : Request) (w : Gotenberg.Writer) (buf : String) : Request :=
  let closed := closedBody w.boundary buf
  let r1 := { r with body := some (BodySrc.multipartBuf closed), buffer := some closed }
  (r1.Header ContentType (formDataContentType w.boundary)).Header ContentLength
    (toString closed.utf8ByteSize)

/-- Outcome of `Send`: the returned response and error, whether the
transport (`r.client.Do`) was invoked, and the final builder state. -/
structure SendResult where
  response : Option Nat
  errOut : Option GoErr
  transportCalled : Bool
  final : Request
deriving DecidableEq, Repr

/-- `Request.Send`: short-circuit on a deferred error, otherwise finalize
multipart (if active) and dispatch through the transport, propagating its
result verbatim. -/
def requestSend (trans : Request → Except GoErr Nat) (r : Request) : SendResult :=
  match r.err with
  | some e => ⟨none, some e, false, r⟩
  | none =>
    match sendFinalize r with
    | .error e => ⟨none, some e, false, r⟩
    | .ok r1 =>
      match trans r1 with
      | .ok resp => ⟨some resp, none, true, r1⟩
      | .error e => ⟨none, some e, true, r1⟩

end HC

/-! ## The reusable builder of src/config.go

`CC.Client` embeds the builder state into the client itself (`Request`
embedded in `Client`): the prepared request is nilable, the buffer pool
is a per-client field, and `Send` runs `defer r.Reset()` so the same
client issues sequential operations.  Only the pieces the claims touch
are embedded; the chain methods shared verbatim with httpclient.go keep
the same semantics. -/

namespace CC

/-- The nilable prepared `*http.Request` owned by the config.go client. -/
structure InnerReq where
  headers : List (String × String)
  rawQuery : List (String × String)
  body : Option HC.BodySrc
deriving DecidableEq, Repr

/-- config.go's `Client`: builder state plus the per-client `bufPool`
free list. -/
structure Client where
  request : Option InnerReq
  multipart : Bool
  writer : Option Gotenberg.Writer
  buffer : Option String
  bufPool : List GoSlice
  err : Option GoErr
deriving DecidableEq, Repr

/-- config.go `Client.Multipart`: besides allocating buffer and writer,
it assigns a fresh `sync.Pool` to `r.bufPool`, dropping any previous
free list. -/
def Client.Multipart (bnd : String) (r : Client) : Client :=
  if r.err.isSome then r
  else if r.multipart then r
  else { r with bufPool := [], buffer := some "", writer := some ⟨bnd, false⟩,
                multipart := true }

/-- config.go `Client.Header` (`r.request.Header.Set`); with a nil
prepared request Go would fault, so the update applies when the request
exists. -/
def Client.Header (r : Client) (key value : String) : Client :=
  if r.err.isSome then r
  else
    let upd := fun rq : InnerReq => { rq with headers := headerSet rq.headers key value }
    { r with request := r.request.map upd }

/-- config.go `Client.File`: like httpclient.go's, except the scratch
slice is re-extended to the constant `bufferSize` (`[:bufferSize]`, not
`[:cap]`) and the deferred release is unconditional. -/
def Client.File (bnd : String) (r : Client) (field filename data : String)
    (readErr : Option GoErr) : Client :=
  if r.err.isSome then r
  else
    let r := if r.multipart then r else r.Multipart bnd
    match r.writer, r.buffer with
    | some w, some buf =>
      let hdr := filePartHeader w.boundary w.started field filename
      let acq := poolGet r.bufPool
      let backing1 := copyLoop bufferSize (strBytes data).length (strBytes data) acq.1.backing
      let pool1 := (⟨backing1, 0⟩ : GoSlice) :: acq.2
      let r1 := { r with buffer := some (buf ++ hdr ++ data),
                         writer := some { w with started := true },
                         bufPool := pool1 }
      match readErr with
      | some e => { r1 with err := some (.wrap "failed to copy file content" e) }
      | none => r1
    | _, _ => r

/-- config.go `Client.Reset`: clear the prepared request, deferred error,
multipart flag and writer; empty (but keep) the sink buffer.  The pool
free list is not touched. -/
def Client.Reset (r : Client) : Client :=
  { r with request := none, err := none, multipart := false, writer := none,
           buffer := r.buffer.map (fun _ => "") }

/-- The multipart finalisation block of config.go `Send`. -/
def csendFinalize (r : Client) : Except GoErr Client :=
  if r.multipart ∧ r.writer.isSome ∧ r.buffer.isSome then
    match r.writer, r.buffer with
    | some w, some buf =>
      match HC.closeWriter buf w with
      | .error e => .error (.wrap "failed to close multipart writer" e)
      | .ok closed =>
        let upd := fun rq : InnerReq => { rq with body := some (HC.BodySrc.multipartBuf closed) }
        let r2 := { r with request := r.request.map upd, buffer := some closed }
        .ok ((r2.Header ContentType (formDataContentType w.boundary)).Header
          ContentLength (toString closed.utf8ByteSize))
    | _, _ => .ok r
  else .ok r

/-- Outcome of config.go `Send`. -/
structure CSendResult where
  response : Option Nat
  errOut : Option GoErr
  transportCalled : Bool
  final : Client
deriving DecidableEq, Repr

/-- config.go `Client.Send`: `defer r.Reset()` runs after the return
values are computed, on every path — error short-circuit, finalisation
and transport dispatch alike. -/
def clientSend (trans : Client → Except GoErr Nat) (r : Client) : CSendResult :=
  match r.err with
  | some e => ⟨none, some e, false, r.Reset⟩
  | none =>
    match csendFinalize r with
    | .error e => ⟨none, some e, false, r.Reset⟩
    | .ok r1 =>
      match trans r1 with
      | .ok resp => ⟨some resp, none, true, r1.Reset⟩
      | .error e => ⟨none, some e, true, r1.Reset⟩

end CC

/-! ## The wrapper of src/gotenberg.go

gotenberg.go wraps a `Multipart` builder from the external module
github.com/nativebpm/http-client, which is not part of this repository's
sources; `NB.Multipart` is therefore modelled from the spec.  The wrapper
`GB.Request` mirrors the underlying builder's deferred error into its own
`err` slot via `GetRequest()`. -/

namespace NB

/-- Modelled from the spec: the external http-client `Multipart` builder
(github.com/nativebpm/http-client, not under the repository sources).
Per the spec, every configuration method checks the deferred-error slot
on entry and returns immediately when it is set, failures are latched
into that slot, and `GetRequest` exposes the current builder together
with its deferred error.  Parts are (field, filename-or-empty, content)
triples in call order. -/
structure Multipart where
  headers : List (String × String)
  parts : List (String × String × String)
  err : Option GoErr
deriving DecidableEq, Repr

/-- Modelled from the spec: header write with deferred-error guard. -/
def Multipart.Header (m : Multipart) (key value : String) : Multipart :=
  if m.err.isSome then m else { m with headers := headerSet m.headers key value }

/-- Modelled from the spec: form-field write with deferred-error guard. -/
def Multipart.FormField (m : Multipart) (field value : String) : Multipart :=
  if m.err.isSome then m else { m with parts := m.parts ++ [(field, "", value)] }

/-- Modelled from the spec: file write with deferred-error guard; a
failing source read latches a wrapped error. -/
def Multipart.File (m : Multipart) (field filename data : String)
    (readErr : Option GoErr) : Multipart :=
  if m.err.isSome then m
  else
    let m1 := { m with parts := m.parts ++ [(field, filename, data)] }
    match readErr with
    | some e => { m1 with err := some (.wrap "failed to copy file content" e) }
    | none => m1

end NB

namespace GB

/-- Webhook and output header-name constants from gotenberg.go. -/
def HeaderWebhookURL : String := "Gotenberg-Webhook-Url"

/-- Webhook error-callback URL header name. -/
def HeaderWebhookErrorURL : String := "Gotenberg-Webhook-Error-Url"

/-- Webhook method header name. -/
def HeaderWebhookMethod : String := "Gotenberg-Webhook-Method"

/-- Webhook error-callback method header name. -/
def HeaderWebhookErrorMethod : String := "Gotenberg-Webhook-Error-Method"

/-- Webhook extra-headers header name. -/
def HeaderWebhookExtraHTTPHeaders : String := "Gotenberg-Webhook-Extra-Http-Headers"

/-- Output filename header name. -/
def HeaderOutputFilename : String := "Gotenberg-Output-Filename"

/-- `json.Marshal` on a `map[string]string`: sorts the keys and emits a
JSON object.  On this input type Go's marshaller cannot return an error
(string keys and values are always encodable), which is why it is a total
function here; control-character escapes are elided since no claim
observes the encoded bytes. -/
def jsonOfMap (hs : List (String × String)) : String :=
  let sorted := List.insertionSort (fun a b : String × String => a.1 ≤ b.1) hs
  "\x7b" ++ String.intercalate ","
    (sorted.map (fun p =>
      "\"" ++ escapeQuotes p.1 ++ "\":\"" ++ escapeQuotes p.2 ++ "\"")) ++ "\x7d"

/-- gotenberg.go's `Request`: the wrapped external builder plus the
wrapper's own deferred-error slot, kept in sync through `GetRequest`. -/
structure Request where
  m : NB.Multipart
  err : Option GoErr
deriving DecidableEq, Repr

/-- Chain calls of the gotenberg.go wrapper.  The float-formatting
methods (`Float`, `PaperSize`, `Margins`) delegate to `FormField` with a
pure number-to-string formatting and have the same chain structure as
`boolField`; they are not separately represented. -/
inductive GCall where
  | header (key value : String)
  | webhookURL (url meth : String)
  | outputFilename (name : String)
  | webhookErrorURL (url meth : String)
  | webhookHeaders (hs : List (String × String))
  | boolField (field : String) (value : Bool)
  | file (field filename data : String) (readErr : Option GoErr)
  | formField (field value : String)
deriving DecidableEq, Repr

/-- Dispatch one wrapper chain call.  Every method guards on `r.err`
except `WebhookHeaders`, which (as in the source) marshals its argument
first; since `json.Marshal` cannot fail on a `map[string]string`, its
error branch is dead and the call proceeds straight to the underlying
`Header` and re-reads the deferred error from `GetRequest`. -/
def Request.applyG (r : Request) : GCall → Request
  | .header k v =>
    if r.err.isSome then r
    else
      let m := r.m.Header k v
      ⟨m, m.err⟩
  | .webhookURL u meth =>
    if r.err.isSome then r
    else
      let m := (r.m.Header HeaderWebhookURL u).Header HeaderWebhookMethod meth
      ⟨m, m.err⟩
  | .outputFilename n =>
    if r.err.isSome then r
    else
      let m := r.m.Header HeaderOutputFilename n
      ⟨m, m.err⟩
  | .webhookErrorURL u meth =>
    if r.err.isSome then r
    else
      let m := (r.m.Header HeaderWebhookErrorURL u).Header HeaderWebhookErrorMethod meth
      ⟨m, m.err⟩
  | .webhookHeaders hs =>
    let m := r.m.Header HeaderWebhookExtraHTTPHeaders (jsonOfMap hs)
    ⟨m, m.err⟩
  | .boolField f v =>
    if r.err.isSome then r
    else
      let m := r.m.FormField f (if v then "true" else "false")
      ⟨m, m.err⟩
  | .file f n d e =>
    if r.err.isSome then r
    else
      let m := r.m.File f n d e
      ⟨m, m.err⟩
  | .formField f v =>
    if r.err.isSome then r
    else
      let m := r.m.FormField f v
      ⟨m, m.err⟩

/-- Apply a sequence of wrapper chain calls in order. -/
def applyGChain (cs : List GCall) (r : Request) : Request :=
  cs.foldl Request.applyG r

end GB

/-! ## A compliant multipart/form-data reader

Used to state the round-trip claim: split the finalized body on the
boundary delimiters, require the terminating marker, and read each part's
Content-Disposition attributes and content. -/

/-- One parsed part: the field name, the filename attribute when present,
and the raw content bytes. -/
structure PartData where
  name : String
  filename : Option String
  content : String
deriving DecidableEq, Repr

/-- Scan for the first occurrence of `sep`, returning the bytes before it
and the bytes after it. -/
def takeUntil (sep : List Char) : List Char → Option (List Char × List Char)
  | [] => none
  | c :: rest =>
    if sep.isPrefixOf (c :: rest) then some ([], (c :: rest).drop sep.length)
    else (takeUntil sep rest).map (fun p => (c :: p.1, p.2))

/-- Whether `sub` occurs inside `l`. -/
def hasSub (sub l : List Char) : Bool :=
  (takeUntil sub l).isSome

/-- Split on every occurrence of `sep` (fueled; `fuel = l.length`
always suffices for non-empty separators). -/
def splitSep (sep : List Char) : Nat → List Char → List (List Char)
  | 0, l => [l]
  | fuel + 1, l =>
    match takeUntil sep l with
    | none => [l]
    | some (before, after) => before :: splitSep sep fuel after

/-- Read a Content-Disposition attribute value: the bytes between
the first occurrence of the attribute marker and the closing quote. -/
def extractAttr (attr l : List Char) : Option String :=
  match takeUntil attr l with
  | none => none
  | some (_, rest) => (takeUntil [quoteChar] rest).map (fun p => String.mk p.1)

/-- Parse one part body: header block up to the blank line, then the
field name, optional filename, and content. -/
def parsePartSeg (seg : List Char) : Option PartData :=
  match takeUntil ("\r\n\r\n".toList) seg with
  | none => none
  | some (hdrBlock, content) =>
    match extractAttr ("name=\"".toList) hdrBlock with
    | none => none
    | some nm => some ⟨nm, extractAttr ("filename=\"".toList) hdrBlock, String.mk content⟩

/-- Parse the boundary-separated segments: every inner segment must open
with CRLF and parse as a part; the final segment must be the terminating
marker. -/
def parseSegs : List (List Char) → Option (List PartData)
  | [] => none
  | [last] => if last = "--\r\n".toList then some [] else none
  | seg :: rest =>
    if ("\r\n".toList).isPrefixOf seg then
      match parsePartSeg (seg.drop 2), parseSegs rest with
      | some p, some ps => some (p :: ps)
      | _, _ => none
    else none

/-- Parse a full multipart/form-data body against a boundary token:
prepend CRLF so every boundary (including the first) appears as a
CRLF-dash-dash-boundary delimiter, split, require nothing before the
first delimiter, and parse the segments. -/
def parseFormData (b body : String) : Option (List PartData) :=
  let delim := ("\r\n--" ++ b).toList
  let padded := ("\r\n" ++ body).toList
  match splitSep delim padded.length padded with
  | [] => none
  | first :: rest => if first = [] then parseSegs rest else none

/-- Observation helper: the bytes of a multipart-attached body, if the
request body is one. -/
def multipartBody : Option HC.BodySrc → Option String
  | some (.multipartBuf d) => some d
  | _ => none

/-- A representative boundary token of the shape Go's `randomBoundary`
produces (30 random bytes in hex, 60 characters). -/
def sampleBoundary : String :=
  "3acd9be21cb0e2e92789c30626e66eb26ba6e4db4cee03b844475ea586ab"

/-- Well-formedness of the buffer pool's free list: every pooled slice
has been truncated to length zero and keeps the default capacity. -/
def poolWF (p : List GoSlice) : Prop :=
  ∀ b ∈ p, b.len = 0 ∧ b.backing.length = bufferSize

/-- The pool free list after one acquire/copy/release cycle of
httpclient.go's `File` (an unfolding of its pool effect, named for use
in statements): the acquired buffer is re-extended to its capacity, the
copy runs through it, and the deferred release truncates it to length
zero and returns it — guarded by `len(buf) > 0`. -/
def releasedPool (p : List GoSlice) (bytes : List Nat) : List GoSlice :=
  let acq := poolGet p
  let scratch : GoSlice := { acq.1 with len := acq.1.backing.length }
  let backing1 := copyLoop scratch.len bytes.length bytes scratch.backing
  if scratch.len > 0 then (⟨backing1, 0⟩ : GoSlice) :: acq.2 else acq.2

/-- The pool free list after one cycle of config.go's `File`: the scratch
slice is re-extended to the constant `bufferSize` and the release is
unconditional. -/
def releasedPoolCC (p : List GoSlice) (bytes : List Nat) : List GoSlice :=
  let acq := poolGet p
  (⟨copyLoop bufferSize bytes.length bytes acq.1.backing, 0⟩ : GoSlice) :: acq.2

/-! ## Lemmas about the association-list operations -/

theorem lookupKV_setKV_self (l : List (String × String)) (k v : String) :
    lookupKV (setKV l k v) k = some v := by
  induction l with
  | nil => simp [setKV, lookupKV]
  | cons p t ih =>
    by_cases h : p.1 = k
    · simp [setKV, h, lookupKV]
    · simp [setKV, h, lookupKV, ih]

theorem lookupKV_setKV_ne (l : List (String × String)) (k v q : String) (hq : k ≠ q) :
    lookupKV (setKV l k v) q = lookupKV l q := by
  induction l with
  | nil => simp [setKV, lookupKV, hq]
  | cons p t ih =>
    by_cases h : p.1 = k
    · simp [setKV, h, lookupKV, hq, Ne.symm hq]
    · by_cases h2 : p.1 = q <;> simp [setKV, h, lookupKV, h2, Ne.symm hq, ih]

theorem lookupKV_setKV (l : List (String × String)) (k v q : String) :
    lookupKV (setKV l k v) q = if k = q then some v else lookupKV l q := by
  by_cases h : k = q
  · subst h; simp [lookupKV_setKV_self]
  · simp [h, lookupKV_setKV_ne l k v q h]

/-! ## Error latching in the httpclient.go chain -/

namespace HC

theorem applyCall_latch (bnd : String) (r : Request) (c : Call) (e : GoErr)
    (h : r.err = some e) : r.applyCall bnd c = r := by
  cases c <;>
    simp [Request.applyCall, Request.Multipart, Request.Header, Request.Headers,
      Request.QueryParam, Request.QueryParams, Request.QueryValues, Request.BodyStream,
      Request.BytesBody, Request.StringBody, Request.JSONBody, Request.File,
      Request.FormField, h]

theorem applyChain_latch (bnd : String) (cs : List Call) (r : Request) (e : GoErr)
    (h : r.err = some e) : applyChain bnd cs r = r := by
  induction cs generalizing r with
  | nil => rfl
  | cons c cs ih =>
    show applyChain bnd cs (r.applyCall bnd c) = r
    rw [applyCall_latch bnd r c e h, ih r h]

theorem applyChain_append (bnd : String) (cs1 cs2 : List Call) (r : Request) :
    applyChain bnd (cs1 ++ cs2) r = applyChain bnd cs2 (applyChain bnd cs1 r) :=
  List.foldl_append ..

end HC

/-! ## Error latching in the gotenberg.go wrapper -/

namespace GB

theorem applyG_latch (g : Request) (c : GCall) (e : GoErr)
    (hinv : g.err = g.m.err) (h : g.err = some e) : g.applyG c = g := by
  have hm : g.m.err = some e := hinv ▸ h
  cases c <;> simp [Request.applyG, NB.Multipart.Header, h, hm]
  case webhookHeaders hs =>
    cases g with
    | mk m gerr => simp_all

theorem applyGChain_latch (cs : List GCall) (g : Request) (e : GoErr)
    (hinv : g.err = g.m.err) (h : g.err = some e) : applyGChain cs g = g := by
  induction cs with
  | nil => rfl
  | cons c cs ih =>
    show applyGChain cs (g.applyG c) = g
    rw [applyG_latch g c e hinv h, ih]

end GB

/-! ## Field-effect lemmas for the chain methods -/

namespace HC

theorem Header_err (r : Request) (k v : String) : (r.Header k v).err = r.err := by
  unfold Request.Header; split <;> rfl

theorem Header_multipart (r : Request) (k v : String) :
    (r.Header k v).multipart = r.multipart := by
  unfold Request.Header; split <;> rfl

theorem Header_body (r : Request) (k v : String) : (r.Header k v).body = r.body := by
  unfold Request.Header; split <;> rfl

theorem Header_writer (r : Request) (k v : String) : (r.Header k v).writer = r.writer := by
  unfold Request.Header; split <;> rfl

theorem Header_buffer (r : Request) (k v : String) : (r.Header k v).buffer = r.buffer := by
  unfold Request.Header; split <;> rfl

theorem Header_pool (r : Request) (k v : String) : (r.Header k v).pool = r.pool := by
  unfold Request.Header; split <;> rfl

theorem Header_headers (r : Request) (k v : String) (h : r.err = none) :
    (r.Header k v).headers = headerSet r.headers k v := by
  unfold Request.Header; simp [h]

theorem foldlHeader_multipart (hs : List (String × String)) (r : Request) :
    (hs.foldl (fun t p => t.Header p.1 p.2) r).multipart = r.multipart := by
  induction hs generalizing r with
  | nil => rfl
  | cons p t ih => simp [List.foldl_cons, ih, Header_multipart]

theorem Multipart_multipart (bnd : String) (r : Request) (h : r.multipart = true) :
    (r.Multipart bnd).multipart = true := by
  unfold Request.Multipart; split
  · exact h
  · simp [h]

theorem Multipart_noop (bnd : String) (r : Request) (h0 : r.err = none)
    (h1 : r.multipart = true) : r.Multipart bnd = r := by
  simp [Request.Multipart, h0, h1]

theorem Headers_multipart (r : Request) (hs : List (String × String)) :
    (r.Headers hs).multipart = r.multipart := by
  unfold Request.Headers; split
  · rfl
  · exact foldlHeader_multipart hs r

theorem QueryParam_multipart (r : Request) (k v : String) :
    (r.QueryParam k v).multipart = r.multipart := by
  unfold Request.QueryParam; split <;> rfl

theorem QueryParams_multipart (r : Request) (ps : List (String × String)) :
    (r.QueryParams ps).multipart = r.multipart := by
  unfold Request.QueryParams; split <;> rfl

theorem QueryValues_multipart (r : Request) (vals : List (String × List String)) :
    (r.QueryValues vals).multipart = r.multipart := by
  unfold Request.QueryValues; split <;> rfl

theorem BodyStream_multipart (r : Request) (tag : Nat) :
    (r.BodyStream tag).multipart = r.multipart := by
  unfold Request.BodyStream; split <;> rfl

theorem BytesBody_multipart (r : Request) (d : String) :
    (r.BytesBody d).multipart = r.multipart := by
  unfold Request.BytesBody; split
  · rfl
  · rw [Header_multipart]

theorem JSONBody_multipart (r : Request) (m : Except String String) :
    (r.JSONBody m).multipart = r.multipart := by
  unfold Request.JSONBody; split
  · rfl
  · split
    · rfl
    · rw [Header_multipart, BytesBody_multipart]

theorem File_multipart_mono (bnd : String) (r : Request) (f n d : String)
    (e : Option GoErr) (h : r.multipart = true) :
    (Request.File bnd r f n d e).multipart = true := by
  unfold Request.File; split
  · exact h
  · simp only [h, if_true]
    split
    · split <;> simp [h]
    · exact h

theorem FormField_multipart_mono (bnd : String) (r : Request) (f v : String)
    (h : r.multipart = true) : (Request.FormField bnd r f v).multipart = true := by
  unfold Request.FormField; split
  · exact h
  · simp only [h, if_true]
    split
    · simp [h]
    · exact h

/-- Every chain call preserves an enabled multipart flag: no method ever
clears it. -/
theorem applyCall_multipart_mono (bnd : String) (r : Request) (c : Call)
    (h : r.multipart = true) : (r.applyCall bnd c).multipart = true := by
  cases c with
  | multipart => exact Multipart_multipart bnd r h
  | header k v => show (r.Header k v).multipart = true; rw [Header_multipart]; exact h
  | headers hs => show (r.Headers hs).multipart = true; rw [Headers_multipart]; exact h
  | contentType ct =>
    show (r.Header ContentType ct).multipart = true
    rw [Header_multipart]; exact h
  | jsonContentType =>
    show (r.Header ContentType ApplicationJSON).multipart = true
    rw [Header_multipart]; exact h
  | queryParam k v =>
    show (r.QueryParam k v).multipart = true
    rw [QueryParam_multipart]; exact h
  | queryParams ps =>
    show (r.QueryParams ps).multipart = true
    rw [QueryParams_multipart]; exact h
  | queryValues vals =>
    show (r.QueryValues vals).multipart = true
    rw [QueryValues_multipart]; exact h
  | bodyStream tag =>
    show (r.BodyStream tag).multipart = true
    rw [BodyStream_multipart]; exact h
  | bytesBody d =>
    show (r.BytesBody d).multipart = true
    rw [BytesBody_multipart]; exact h
  | stringBody d =>
    show (r.BytesBody d).multipart = true
    rw [BytesBody_multipart]; exact h
  | jsonBody m =>
    show (r.JSONBody m).multipart = true
    rw [JSONBody_multipart]; exact h
  | file f n d e => exact File_multipart_mono bnd r f n d e h
  | formField f v => exact FormField_multipart_mono bnd r f v h

end HC

/-! ## Claim theorems -/

/-- C1.  First-error-wins: in any chain of calls on one httpclient.go
`Request` in which the k-th call fails (the deferred error slot is empty
before it and holds `e` after it), the final state after all n calls
equals the state right after the k-th call — the deferred error still
equals the k-th call's error and no later call had any observable effect
on headers, query, body, multipart state or the buffer pool.  For the
gotenberg.go wrapper (whose underlying builder is spec-modelled, with the
deferred error mirrored through `GetRequest`), every chain call on an
errored `Request` — including `WebhookHeaders`, which lacks the entry
guard but whose marshal step cannot fail — leaves the state unchanged. -/
theorem C1_first_error_wins :
    (∀ (bnd : String) (s0 : HC.Request) (cs : List HC.Call) (k : Nat) (e : GoErr),
      k < cs.length →
      (HC.applyChain bnd (cs.take k) s0).err = none →
      (HC.applyChain bnd (cs.take (k + 1)) s0).err = some e →
      HC.applyChain bnd cs s0 = HC.applyChain bnd (cs.take (k + 1)) s0 ∧
        (HC.applyChain bnd cs s0).err = some e) ∧
    (∀ (g : GB.Request) (cs : List GB.GCall) (e : GoErr),
      g.err = g.m.err → g.err = some e → GB.applyGChain cs g = g) := by
  constructor
  · intro bnd s0 cs k e _hk _hpre hfail
    have hsplit : HC.applyChain bnd cs s0 =
        HC.applyChain bnd (cs.drop (k + 1)) (HC.applyChain bnd (cs.take (k + 1)) s0) := by
      conv_lhs => rw [← List.take_append_drop (k + 1) cs]
      exact HC.applyChain_append ..
    rw [hsplit, HC.applyChain_latch bnd _ _ e hfail]
    exact ⟨rfl, hfail⟩
  · intro g cs e hinv h
    exact GB.applyGChain_latch cs g e hinv h

/-- Witness for C1 at a concrete failing chain: the second call of the
json-marshal-failure chain has no effect, and a wrapper chain consisting
of a `WebhookHeaders` call leaves an errored wrapper state unchanged. -/
theorem C1_first_error_wins_witness :
    (HC.applyChain "b" [.jsonBody (.error "boom"), .header "K" "V"] (HC.mkRequest none) =
        HC.applyChain "b" ([.jsonBody (.error "boom"), .header "K" "V"].take 1)
          (HC.mkRequest none) ∧
      (HC.applyChain "b" [.jsonBody (.error "boom"), .header "K" "V"]
          (HC.mkRequest none)).err =
        some (.wrap "failed to marshal JSON" (.marshalFailure "boom"))) ∧
    GB.applyGChain [.webhookHeaders [("A", "B")]]
        ⟨⟨[], [], some (.readFailure "x")⟩, some (.readFailure "x")⟩ =
      ⟨⟨[], [], some (.readFailure "x")⟩, some (.readFailure "x")⟩ :=
  ⟨C1_first_error_wins.1 "b" (HC.mkRequest none)
      [.jsonBody (.error "boom"), .header "K" "V"] 0
      (.wrap "failed to marshal JSON" (.marshalFailure "boom"))
      (by decide) (by decide) (by decide),
    C1_first_error_wins.2 ⟨⟨[], [], some (.readFailure "x")⟩, some (.readFailure "x")⟩
      [.webhookHeaders [("A", "B")]] (.readFailure "x") rfl rfl⟩

/-- C2.  Error short-circuit on Send: when the deferred error slot holds
`e`, `Send` returns no response together with exactly `e`, the transport
is not invoked (for any transport function), and the builder state is
untouched. -/
theorem C2_send_short_circuit (trans : HC.Request → Except GoErr Nat) (r : HC.Request)
    (e : GoErr) (h : r.err = some e) :
    HC.requestSend trans r = ⟨none, some e, false, r⟩ := by
  simp [HC.requestSend, h]

/-- Witness for C2: a concretely errored request short-circuits. -/
theorem C2_send_short_circuit_witness :
    HC.requestSend (fun _ => .ok 0) (HC.mkRequest (some (.readFailure "x"))) =
      ⟨none, some (.readFailure "x"), false, HC.mkRequest (some (.readFailure "x"))⟩ :=
  C2_send_short_circuit (fun _ => .ok 0) (HC.mkRequest (some (.readFailure "x")))
    (.readFailure "x") rfl

/-! ## Send finalisation lemmas -/

namespace HC

theorem BytesBody_err (r : Request) (d : String) : (r.BytesBody d).err = r.err := by
  unfold Request.BytesBody; split
  · rfl
  · rw [Header_err]

theorem BytesBody_body (r : Request) (d : String) (h : r.err = none) :
    (r.BytesBody d).body = some (.bytes d) := by
  unfold Request.BytesBody; simp [h, Header_body]

theorem sendFinalize_of_active (r : Request) (w : Gotenberg.Writer) (buf : String)
    (h1 : r.multipart = true) (h2 : r.writer = some w) (h3 : r.buffer = some buf) :
    sendFinalize r = .ok (finalizedOf r w buf) := by
  unfold sendFinalize finalizedOf
  rw [if_pos (by simp [h1, h2, h3])]
  rw [h2, h3]
  simp [closeWriter]

theorem sendFinalize_multipart (r r1 : Request) (h : sendFinalize r = .ok r1) :
    r1.multipart = r.multipart := by
  unfold sendFinalize at h
  split at h
  · split at h
    · simp only [closeWriter] at h
      injection h with h
      subst h
      rw [Header_multipart, Header_multipart]
    · injection h with h; subst h; rfl
  · injection h with h; subst h; rfl

theorem finalizedOf_headers (r : Request) (w : Gotenberg.Writer) (buf : String)
    (h0 : r.err = none) :
    (finalizedOf r w buf).headers =
      setKV (setKV r.headers (canonicalMIMEHeaderKey ContentType)
          (formDataContentType w.boundary))
        (canonicalMIMEHeaderKey ContentLength)
        (toString (closedBody w.boundary buf).utf8ByteSize) := by
  simp [finalizedOf, Request.Header, headerSet, h0]

theorem requestSend_final (trans : Request → Except GoErr Nat) (r r1 : Request)
    (h0 : r.err = none) (h : sendFinalize r = .ok r1) :
    (requestSend trans r).final = r1 ∧ (requestSend trans r).transportCalled = true := by
  unfold requestSend
  simp only [h0, h]
  cases htr : trans r1 <;> simp [htr]

end HC

/-- C3 (amended claim).  Mixing a raw body with multipart fields is
neither rejected nor made impossible: after `BytesBody` followed by
`FormField` no deferred error is recorded, the raw body and the multipart
part coexist on the `Request`, and at `Send` time the finalized multipart
body silently replaces the raw body. -/
theorem C3_body_exclusivity_amended (bnd : String) (s : HC.Request) (data f v : String)
    (h0 : s.err = none) (h1 : s.multipart = false) :
    ((s.BytesBody data).FormField bnd f v).err = none ∧
    ((s.BytesBody data).FormField bnd f v).body = some (.bytes data) ∧
    ((s.BytesBody data).FormField bnd f v).multipart = true ∧
    ((s.BytesBody data).FormField bnd f v).buffer =
      some ("" ++ fieldPartHeader bnd false f ++ v) ∧
    ∀ trans, (HC.requestSend trans ((s.BytesBody data).FormField bnd f v)).final.body =
      some (.multipartBuf (closedBody bnd ("" ++ fieldPartHeader bnd false f ++ v))) := by
  have hBerr : (s.BytesBody data).err = none := by rw [HC.BytesBody_err]; exact h0
  have hBmp : (s.BytesBody data).multipart = false := by rw [HC.BytesBody_multipart]; exact h1
  have key : (s.BytesBody data).FormField bnd f v = { s.BytesBody data with multipart := true, writer := some ⟨bnd, true⟩, buffer := some ("" ++ fieldPartHeader bnd false f ++ v) } := by
    unfold HC.Request.FormField HC.Request.Multipart
    simp [hBerr, hBmp]
  refine ⟨by rw [key]; exact hBerr, by rw [key]; exact HC.BytesBody_body s data h0,
    by rw [key], by rw [key], ?_⟩
  intro trans
  have hfin := HC.sendFinalize_of_active ((s.BytesBody data).FormField bnd f v)
    ⟨bnd, true⟩ ("" ++ fieldPartHeader bnd false f ++ v)
    (by rw [key]) (by rw [key]) (by rw [key])
  have hres := HC.requestSend_final trans _ _ (by rw [key]; exact hBerr) hfin
  rw [hres.1]
  simp [HC.finalizedOf, HC.Header_body]

/-- Counterexample to C3 as stated: on a concrete `Request`, setting a
multipart field after a raw byte body is not rejected (no deferred
error), both body kinds coexist, and `Send` silently overwrites the raw
body with the multipart body. -/
theorem C3_counterexample :
    (((HC.mkRequest none).BytesBody "x").FormField "b" "f" "v").err = none ∧
    (((HC.mkRequest none).BytesBody "x").FormField "b" "f" "v").body =
      some (.bytes "x") ∧
    (((HC.mkRequest none).BytesBody "x").FormField "b" "f" "v").buffer.isSome = true ∧
    (HC.requestSend (fun _ => .ok 0)
        (((HC.mkRequest none).BytesBody "x").FormField "b" "f" "v")).final.body ≠
      some (.bytes "x") := by
  refine ⟨by decide, by decide, by decide, ?_⟩
  decide

/-- Witness for C3 (amended) at a concrete request. -/
theorem C3_body_exclusivity_amended_witness :
    (((HC.mkRequest none).BytesBody "data").FormField "b" "f" "v").err = none ∧
    (((HC.mkRequest none).BytesBody "data").FormField "b" "f" "v").body =
      some (.bytes "data") ∧
    (((HC.mkRequest none).BytesBody "data").FormField "b" "f" "v").multipart = true ∧
    (((HC.mkRequest none).BytesBody "data").FormField "b" "f" "v").buffer =
      some ("" ++ fieldPartHeader "b" false "f" ++ "v") ∧
    ∀ trans,
      (HC.requestSend trans
          (((HC.mkRequest none).BytesBody "data").FormField "b" "f" "v")).final.body =
        some (.multipartBuf (closedBody "b" ("" ++ fieldPartHeader "b" false "f" ++ "v"))) :=
  C3_body_exclusivity_amended "b" (HC.mkRequest none) "data" "f" "v" rfl rfl

/-- C6.  Finalisation-before-send: on a multipart request, `Send` closes
the encoder (appending the trailing boundary) before deriving headers and
attaching the body — the attached body and the retained buffer are the
closed body, Content-Type is the writer's boundary-qualified value,
Content-Length is the closed body's final byte count, and the transport
is then invoked; were the close to fail, `Send` would return the wrapped
close error without calling the transport (against the buffer sink the
close cannot fail, matching the source's unreachable branch). -/
theorem C6_finalize_before_send (trans : HC.Request → Except GoErr Nat) (r : HC.Request)
    (w : Gotenberg.Writer) (buf : String) (h0 : r.err = none) (h1 : r.multipart = true)
    (h2 : r.writer = some w) (h3 : r.buffer = some buf) :
    (HC.requestSend trans r).final.body =
      some (.multipartBuf (closedBody w.boundary buf)) ∧
    (HC.requestSend trans r).final.buffer = some (closedBody w.boundary buf) ∧
    lookupKV (HC.requestSend trans r).final.headers ContentType =
      some (formDataContentType w.boundary) ∧
    lookupKV (HC.requestSend trans r).final.headers ContentLength =
      some (toString (closedBody w.boundary buf).utf8ByteSize) ∧
    (HC.requestSend trans r).transportCalled = true ∧
    (∀ e, HC.closeWriter buf w = .error e →
      HC.requestSend trans r = ⟨none, some (.wrap "failed to close multipart writer" e),
        false, r⟩) := by
  have hfin := HC.sendFinalize_of_active r w buf h1 h2 h3
  have hres := HC.requestSend_final trans r _ h0 hfin
  have hct : canonicalMIMEHeaderKey ContentType = ContentType := by decide
  have hcl : canonicalMIMEHeaderKey ContentLength = ContentLength := by decide
  have hne : ContentLength ≠ ContentType := by decide
  refine ⟨?_, ?_, ?_, ?_, hres.2, ?_⟩
  · rw [hres.1]; simp [HC.finalizedOf, HC.Header_body]
  · rw [hres.1]; simp [HC.finalizedOf, HC.Header_buffer]
  · rw [hres.1, HC.finalizedOf_headers r w buf h0, hct, hcl,
      lookupKV_setKV_ne _ _ _ _ hne, lookupKV_setKV_self]
  · rw [hres.1, HC.finalizedOf_headers r w buf h0, hct, hcl, lookupKV_setKV_self]
  · intro e he
    simp [HC.closeWriter] at he

/-- Witness for C6 at a concrete multipart request. -/
theorem C6_finalize_before_send_witness :
    (HC.requestSend (fun _ => .ok 0)
        ((HC.mkRequest none).FormField "b" "f" "v")).final.body =
      some (.multipartBuf (closedBody "b" ("" ++ fieldPartHeader "b" false "f" ++ "v"))) ∧
    (HC.requestSend (fun _ => .ok 0)
        ((HC.mkRequest none).FormField "b" "f" "v")).final.buffer =
      some (closedBody "b" ("" ++ fieldPartHeader "b" false "f" ++ "v")) ∧
    lookupKV (HC.requestSend (fun _ => .ok 0)
        ((HC.mkRequest none).FormField "b" "f" "v")).final.headers ContentType =
      some (formDataContentType "b") ∧
    lookupKV (HC.requestSend (fun _ => .ok 0)
        ((HC.mkRequest none).FormField "b" "f" "v")).final.headers ContentLength =
      some (toString (closedBody "b"
        ("" ++ fieldPartHeader "b" false "f" ++ "v")).utf8ByteSize) ∧
    (HC.requestSend (fun _ => .ok 0)
        ((HC.mkRequest none).FormField "b" "f" "v")).transportCalled = true ∧
    (∀ e, HC.closeWriter ("" ++ fieldPartHeader "b" false "f" ++ "v") (⟨"b", true⟩) =
        .error e →
      HC.requestSend (fun _ => .ok 0) ((HC.mkRequest none).FormField "b" "f" "v") =
        ⟨none, some (.wrap "failed to close multipart writer" e), false,
          (HC.mkRequest none).FormField "b" "f" "v"⟩) :=
  C6_finalize_before_send (fun _ => .ok 0) ((HC.mkRequest none).FormField "b" "f" "v")
    ⟨"b", true⟩ ("" ++ fieldPartHeader "b" false "f" ++ "v")
    (by decide) (by decide) (by decide) (by decide)

/-- C8.  Multipart idempotence and monotonicity: enabling multipart on an
enabled request is the identity (one writer, one boundary, one buffer for
the request's lifetime), a double enable equals a single enable on any
state, and once the flag is set no chain call and no `Send` ever clears
it. -/
theorem C8_multipart_idempotent :
    (∀ (bnd : String) (r : HC.Request), r.err = none → r.multipart = true →
      r.Multipart bnd = r) ∧
    (∀ (bnd : String) (r : HC.Request),
      (r.Multipart bnd).Multipart bnd = r.Multipart bnd) ∧
    (∀ (bnd : String) (r : HC.Request) (c : HC.Call), r.multipart = true →
      (r.applyCall bnd c).multipart = true) ∧
    (∀ (trans : HC.Request → Except GoErr Nat) (r : HC.Request), r.multipart = true →
      (HC.requestSend trans r).final.multipart = true) := by
  refine ⟨fun bnd r h0 h1 => HC.Multipart_noop bnd r h0 h1, ?_, ?_, ?_⟩
  · intro bnd r
    by_cases herr : r.err.isSome
    · simp [HC.Request.Multipart, herr]
    · by_cases hmp : r.multipart
      · simp [HC.Request.Multipart, herr, hmp]
      · simp [HC.Request.Multipart, herr, hmp]
  · exact fun bnd r c h => HC.applyCall_multipart_mono bnd r c h
  · intro trans r h
    unfold HC.requestSend
    cases herr : r.err with
    | some e => simpa using h
    | none =>
      cases hfin : HC.sendFinalize r with
      | error e => simpa using h
      | ok r1 =>
        have := HC.sendFinalize_multipart r r1 hfin
        cases htr : trans r1 <;> simp [htr, this, h]

/-- Witness for C8 at concrete requests. -/
theorem C8_multipart_idempotent_witness :
    ((HC.mkRequest none).Multipart "b").Multipart "b" = (HC.mkRequest none).Multipart "b" ∧
    (((HC.mkRequest none).Multipart "b").applyCall "b" (.header "K" "V")).multipart = true ∧
    (HC.requestSend (fun _ => .ok 0) ((HC.mkRequest none).Multipart "b")).final.multipart =
      true :=
  ⟨C8_multipart_idempotent.2.1 "b" (HC.mkRequest none),
    C8_multipart_idempotent.2.2.1 "b" ((HC.mkRequest none).Multipart "b")
      (.header "K" "V") (by decide),
    C8_multipart_idempotent.2.2.2 (fun _ => .ok 0) ((HC.mkRequest none).Multipart "b")
      (by decide)⟩

/-! ## Lemmas about url.Values operations and encoding -/

theorem lookupVals_valsSet_self (q : List (String × List String)) (k v : String) :
    lookupVals (valsSet q k v) k = [v] := by
  induction q with
  | nil => simp [valsSet, lookupVals]
  | cons p t ih =>
    by_cases h : p.1 = k
    · simp [valsSet, h, lookupVals]
    · simp [valsSet, h, lookupVals, ih]

theorem lookupVals_valsSet_ne (q : List (String × List String)) (k v q' : String)
    (hq : k ≠ q') : lookupVals (valsSet q k v) q' = lookupVals q q' := by
  induction q with
  | nil => simp [valsSet, lookupVals, hq]
  | cons p t ih =>
    by_cases h : p.1 = k
    · simp [valsSet, h, lookupVals, hq, Ne.symm hq]
    · by_cases h2 : p.1 = q' <;> simp [valsSet, h, lookupVals, h2, hq, Ne.symm hq, ih]

theorem lookupVals_valsAdd_self (q : List (String × List String)) (k v : String) :
    lookupVals (valsAdd q k v) k = lookupVals q k ++ [v] := by
  induction q with
  | nil => simp [valsAdd, lookupVals]
  | cons p t ih =>
    by_cases h : p.1 = k
    · simp [valsAdd, h, lookupVals]
    · simp [valsAdd, h, lookupVals, ih]

theorem lookupVals_valsAdd_ne (q : List (String × List String)) (k v q' : String)
    (hq : k ≠ q') : lookupVals (valsAdd q k v) q' = lookupVals q q' := by
  induction q with
  | nil => simp [valsAdd, lookupVals, hq]
  | cons p t ih =>
    by_cases h : p.1 = k
    · simp [valsAdd, h, lookupVals, hq, Ne.symm hq]
    · by_cases h2 : p.1 = q' <;> simp [valsAdd, h, lookupVals, h2, hq, Ne.symm hq, ih]

theorem lookupVals_valsDel_self (q : List (String × List String)) (k : String) :
    lookupVals (valsDel q k) k = [] := by
  induction q with
  | nil => simp [valsDel, lookupVals]
  | cons p t ih =>
    by_cases h : p.1 = k
    · simp [valsDel, h, ih]
    · simp [valsDel, h, lookupVals, ih]

theorem lookupVals_valsDel_ne (q : List (String × List String)) (k q' : String)
    (hq : k ≠ q') : lookupVals (valsDel q k) q' = lookupVals q q' := by
  induction q with
  | nil => simp [valsDel, lookupVals]
  | cons p t ih =>
    by_cases h : p.1 = k
    · simp [valsDel, h, lookupVals, hq, Ne.symm hq, ih]
    · by_cases h2 : p.1 = q' <;> simp [valsDel, h, lookupVals, h2, hq, Ne.symm hq, ih]

theorem mem_keys_of_lookupVals (q : List (String × List String)) (k v : String)
    (h : v ∈ lookupVals q k) : k ∈ q.map Prod.fst := by
  induction q with
  | nil => simp [lookupVals] at h
  | cons p t ih =>
    by_cases hk : p.1 = k
    · simp [hk]
    · simp [lookupVals, hk] at h
      simp [ih h]

/-- Membership in the encoded query characterises the stored values:
a pair (k, v) appears in `Encode`'s output exactly when v is among the
values stored under k. -/
theorem mem_encodeVals (q : List (String × List String)) (k v : String) :
    (k, v) ∈ encodeVals q ↔ v ∈ lookupVals q k := by
  unfold encodeVals
  simp only [List.mem_flatMap, List.mem_map]
  constructor
  · rintro ⟨a, _, w, hw, heq⟩
    injection heq with h1 h2
    subst h1; subst h2
    exact hw
  · intro hv
    exact ⟨k, (List.perm_insertionSort (fun a b => a ≤ b)
      (q.map Prod.fst)).mem_iff.mpr (mem_keys_of_lookupVals q k v hv), v, hv, rfl⟩

theorem lookupVals_qvStep_ne (q : List (String × List String))
    (e : String × List String) (k : String) (h : e.1 ≠ k) :
    lookupVals (HC.qvStep q e) k = lookupVals q k := by
  unfold HC.qvStep; split
  · exact lookupVals_valsDel_ne q e.1 k h
  · exact lookupVals_valsAdd_ne q e.1 _ k h

theorem lookupVals_foldl_qvStep_notmem (l : List (String × List String))
    (q : List (String × List String)) (k : String) (h : k ∉ l.map Prod.fst) :
    lookupVals (l.foldl HC.qvStep q) k = lookupVals q k := by
  induction l generalizing q with
  | nil => rfl
  | cons e t ih =>
    simp only [List.map_cons, List.mem_cons, not_or] at h
    rw [List.foldl_cons, ih _ h.2, lookupVals_qvStep_ne q e k (fun he => h.1 he.symm)]

/-- Effect of one `QueryValues` application on the values stored under a
key it mentions: an empty `Get` deletes the key, a non-empty one appends
the value. -/
theorem lookupVals_foldl_qvStep (l : List (String × List String))
    (q : List (String × List String)) (k : String) (lv : List String)
    (hn : (l.map Prod.fst).Nodup) (hm : (k, lv) ∈ l) :
    lookupVals (l.foldl HC.qvStep q) k =
      if lv.headD "" = "" then [] else lookupVals q k ++ [lv.headD ""] := by
  induction l generalizing q with
  | nil => simp at hm
  | cons e t ih =>
    have hnt : (t.map Prod.fst).Nodup := (List.nodup_cons.mp hn).2
    rcases List.mem_cons.mp hm with heq | hmt
    · subst heq
      have hk : k ∉ t.map Prod.fst := by
        simpa using (List.nodup_cons.mp hn).1
      rw [List.foldl_cons, lookupVals_foldl_qvStep_notmem t _ k hk]
      unfold HC.qvStep
      split
      · next hcond => simp only [hcond, if_pos rfl, lookupVals_valsDel_self]
      · next hcond =>
        simp only [hcond, if_neg hcond, lookupVals_valsAdd_self]
    · have hne : e.1 ≠ k := by
        intro he
        have : k ∈ t.map Prod.fst := List.mem_map.mpr ⟨(k, lv), hmt, rfl⟩
        exact (List.nodup_cons.mp hn).1 (he ▸ this)
      rw [List.foldl_cons, ih _ hnt hmt, lookupVals_qvStep_ne q e k hne]

namespace HC

theorem QueryParam_err (r : Request) (k v : String) : (r.QueryParam k v).err = r.err := by
  unfold Request.QueryParam; split <;> rfl

theorem QueryParam_rawQuery (r : Request) (k v : String) (h : r.err = none) :
    (r.QueryParam k v).rawQuery = encodeVals (valsSet (parseQuery r.rawQuery) k v) := by
  unfold Request.QueryParam; simp [h]

theorem QueryValues_rawQuery (r : Request) (vals : List (String × List String))
    (h : r.err = none) :
    (r.QueryValues vals).rawQuery =
      encodeVals (vals.foldl qvStep (parseQuery r.rawQuery)) := by
  unfold Request.QueryValues; simp [h]

theorem Header_noop_of_err (r : Request) (k v : String) (h : r.err.isSome = true) :
    r.Header k v = r := by
  unfold Request.Header; simp [h]

/-- Pointwise congruence for header folds: two states whose header
collections agree under lookup (and whose error slots are equal) stay in
agreement under any sequence of `Header` calls. -/
theorem lookup_foldHeader_congr (l : List (String × String)) (s t : Request)
    (he : s.err = t.err) (hl : ∀ q, lookupKV s.headers q = lookupKV t.headers q) :
    ∀ q, lookupKV ((l.foldl (fun a p => a.Header p.1 p.2) s)).headers q =
      lookupKV ((l.foldl (fun a p => a.Header p.1 p.2) t)).headers q := by
  induction l generalizing s t with
  | nil => exact hl
  | cons p tl ih =>
    rw [List.foldl_cons, List.foldl_cons]
    cases hse : s.err with
    | some e =>
      have hte : t.err.isSome = true := by rw [← he, hse]; rfl
      rw [Header_noop_of_err s p.1 p.2 (by rw [hse]; rfl),
        Header_noop_of_err t p.1 p.2 hte]
      exact ih s t he hl
    | none =>
      have hte : t.err = none := he ▸ hse
      refine ih _ _ (by rw [Header_err, Header_err, he]) ?_
      intro q
      rw [Header_headers s p.1 p.2 hse, Header_headers t p.1 p.2 hte]
      unfold headerSet
      rw [lookupKV_setKV, lookupKV_setKV]
      by_cases hq : canonicalMIMEHeaderKey p.1 = q <;> simp [hq, hl q]

/-- Folding single-key `Header` calls over a bulk map is insensitive to
the order of the entries as long as the canonicalised keys are distinct. -/
theorem lookup_foldHeader_perm (l1 l2 : List (String × String)) (hp : l1.Perm l2)
    (hn : (l1.map (fun p => canonicalMIMEHeaderKey p.1)).Nodup) (s : Request) :
    ∀ q, lookupKV ((l1.foldl (fun a p => a.Header p.1 p.2) s)).headers q =
      lookupKV ((l2.foldl (fun a p => a.Header p.1 p.2) s)).headers q := by
  induction hp generalizing s with
  | nil => intro q; rfl
  | cons x hp ih =>
    intro q
    rw [List.foldl_cons, List.foldl_cons]
    exact ih (by simpa using (List.nodup_cons.mp (by simpa using hn)).2) (s.Header x.1 x.2) q
  | swap x y l =>
    intro q
    rw [List.foldl_cons, List.foldl_cons, List.foldl_cons, List.foldl_cons]
    have hxy : canonicalMIMEHeaderKey x.1 ≠ canonicalMIMEHeaderKey y.1 := by
      have := hn
      simp only [List.map_cons, List.nodup_cons, List.mem_cons] at this
      exact fun he => this.1 (Or.inl he.symm)
    refine lookup_foldHeader_congr l _ _ (by rw [Header_err, Header_err, Header_err, Header_err]) ?_ q
    intro q'
    cases hse : s.err with
    | some e =>
      have h1 := Header_noop_of_err s y.1 y.2 (by rw [hse]; rfl)
      have h2 := Header_noop_of_err s x.1 x.2 (by rw [hse]; rfl)
      rw [h1, h2, h1]
    | none =>
      have hy : (s.Header y.1 y.2).err = none := by rw [Header_err]; exact hse
      have hx : (s.Header x.1 x.2).err = none := by rw [Header_err]; exact hse
      rw [Header_headers _ _ _ hy, Header_headers _ _ _ hse,
        Header_headers _ _ _ hx, Header_headers _ _ _ hse]
      unfold headerSet
      rw [lookupKV_setKV, lookupKV_setKV, lookupKV_setKV, lookupKV_setKV]
      by_cases hqx : canonicalMIMEHeaderKey x.1 = q' <;>
        by_cases hqy : canonicalMIMEHeaderKey y.1 = q' <;>
        simp [hqx, hqy]
      exact absurd (hqx.trans hqy.symm) hxy
  | trans hp1 hp2 ih1 ih2 =>
    intro q
    rw [ih1 hn s q]
    exact ih2 (((hp1.map (fun p => canonicalMIMEHeaderKey p.1)).nodup_iff).mp hn) s q

theorem Headers_foldl (r : Request) (hs : List (String × String)) (h : r.err = none) :
    r.Headers hs = hs.foldl (fun a p => a.Header p.1 p.2) r := by
  unfold Request.Headers; simp [h]

end HC

/-- C4 (amended claim).  Repeated `Header` calls with the same key keep
only the last value, repeated `QueryParam` calls with the same key keep
only the last value, and a bulk `Headers` map is equivalent to the
sequential single-key calls in any internal order provided the
canonicalised keys are distinct.  (As stated the original claim fails:
`QueryValues` — the cited query-setting call — appends rather than
replaces, and two distinct raw keys can canonicalise to the same header
key, making map order observable; see the counterexample.) -/
theorem C4_last_write_wins_amended :
    (∀ (s : HC.Request) (k v1 v2 : String), s.err = none →
      lookupKV ((s.Header k v1).Header k v2).headers (canonicalMIMEHeaderKey k) =
        some v2) ∧
    (∀ (s : HC.Request) (k v1 v2 : String), s.err = none →
      ∀ v, (k, v) ∈ ((s.QueryParam k v1).QueryParam k v2).rawQuery ↔ v = v2) ∧
    (∀ (s : HC.Request) (l1 l2 : List (String × String)), s.err = none →
      l1.Perm l2 → (l1.map (fun p => canonicalMIMEHeaderKey p.1)).Nodup →
      ∀ q, lookupKV (s.Headers l1).headers q =
        lookupKV (l2.foldl (fun a p => a.Header p.1 p.2) s).headers q) := by
  refine ⟨?_, ?_, ?_⟩
  · intro s k v1 v2 h0
    have h1 : (s.Header k v1).err = none := by rw [HC.Header_err]; exact h0
    rw [HC.Header_headers _ _ _ h1, HC.Header_headers _ _ _ h0]
    unfold headerSet
    exact lookupKV_setKV_self ..
  · intro s k v1 v2 h0 v
    have h1 : (s.QueryParam k v1).err = none := by rw [HC.QueryParam_err]; exact h0
    rw [HC.QueryParam_rawQuery _ _ _ h1, mem_encodeVals, lookupVals_valsSet_self]
    simp
  · intro s l1 l2 h0 hp hn q
    rw [HC.Headers_foldl s l1 h0]
    exact HC.lookup_foldHeader_perm l1 l2 hp hn s q

/-- Counterexample to C4 as stated: applying `QueryValues` twice with the
same key accumulates both values instead of keeping the last, and a bulk
header map with the two distinct keys "ab" and "Ab" (which canonicalise
to the same header key) produces different final header content in its
two iteration orders. -/
theorem C4_counterexample :
    (((HC.mkRequest none).QueryValues [("k", ["a"])]).QueryValues [("k", ["b"])]).rawQuery =
      [("k", "a"), ("k", "b")] ∧
    "ab" ≠ "Ab" ∧
    ((HC.mkRequest none).Headers [("ab", "1"), ("Ab", "2")]).headers ≠
      ((HC.mkRequest none).Headers [("Ab", "2"), ("ab", "1")]).headers := by
  refine ⟨by decide, by decide, by decide⟩

/-- Witness for C4 (amended) at concrete requests. -/
theorem C4_last_write_wins_amended_witness :
    lookupKV (((HC.mkRequest none).Header "K" "1").Header "K" "2").headers
      (canonicalMIMEHeaderKey "K") = some "2" ∧
    (("K", "2") ∈ (((HC.mkRequest none).QueryParam "K" "1").QueryParam "K" "2").rawQuery ↔
      ("2" : String) = "2") ∧
    lookupKV ((HC.mkRequest none).Headers [("A", "1"), ("B", "2")]).headers "A" =
      lookupKV ([("B", "2"), ("A", "1")].foldl (fun a p => a.Header p.1 p.2)
        (HC.mkRequest none)).headers "A" :=
  ⟨C4_last_write_wins_amended.1 (HC.mkRequest none) "K" "1" "2" rfl,
    C4_last_write_wins_amended.2.1 (HC.mkRequest none) "K" "1" "2" rfl "2",
    C4_last_write_wins_amended.2.2 (HC.mkRequest none) [("A", "1"), ("B", "2")]
      [("B", "2"), ("A", "1")] rfl (by decide) (by decide) "A"⟩

/-- C9.  Query-value removal rule: applying `QueryValues` with a value
set whose `Get` for key k yields the empty string removes k from the
final query entirely (any previously stored value included); a key whose
`Get` yields a non-empty value appears in the final query with that
value. -/
theorem C9_query_removal (r : HC.Request) (vals : List (String × List String))
    (k : String) (lv : List String) (h0 : r.err = none)
    (hn : (vals.map Prod.fst).Nodup) (hm : (k, lv) ∈ vals) :
    (lv.headD "" = "" → ∀ v, (k, v) ∉ (r.QueryValues vals).rawQuery) ∧
    (∀ v, lv.headD "" = v → v ≠ "" → (k, v) ∈ (r.QueryValues vals).rawQuery) := by
  have hq := HC.QueryValues_rawQuery r vals h0
  have hl := lookupVals_foldl_qvStep vals (parseQuery r.rawQuery) k lv hn hm
  constructor
  · intro hemp v hv
    rw [hq, mem_encodeVals, hl, if_pos hemp] at hv
    simp at hv
  · intro v hv hne
    rw [hq, mem_encodeVals, hl, if_neg (hv ▸ hne), hv]
    simp

/-- Witness for C9: a previously set key is removed by an empty-valued
set, and a non-empty value appears. -/
theorem C9_query_removal_witness :
    (∀ v, ("k", v) ∉ (((HC.mkRequest none).QueryParam "k" "old").QueryValues
      [("k", [""])]).rawQuery) ∧
    ("j", "new") ∈ ((HC.mkRequest none).QueryValues [("j", ["new"])]).rawQuery :=
  ⟨(C9_query_removal ((HC.mkRequest none).QueryParam "k" "old") [("k", [""])] "k" [""]
      (by decide) (by decide) (by decide)).1 rfl,
    (C9_query_removal (HC.mkRequest none) [("j", ["new"])] "j" ["new"]
      (by decide) (by decide) (by decide)).2 "new" rfl (by decide)⟩

/-! ## Buffer pool lemmas -/

theorem overwriteChunk_length (backing chunk : List Nat) (h : chunk.length ≤ backing.length) :
    (overwriteChunk backing chunk).length = backing.length := by
  simp [overwriteChunk]
  omega

theorem copyLoop_length (capN fuel : Nat) (content backing : List Nat)
    (h : capN ≤ backing.length) :
    (copyLoop capN fuel content backing).length = backing.length := by
  induction fuel generalizing content backing with
  | zero => rfl
  | succ n ih =>
    cases content with
    | nil => rfl
    | cons c cs =>
      rw [copyLoop]
      have hc : ((c :: cs).take capN).length ≤ backing.length :=
        le_trans (by simp [List.length_take]) h
      rw [ih _ _ (by rw [overwriteChunk_length _ _ hc]; exact h),
        overwriteChunk_length _ _ hc]

theorem bufferSize_pos : 0 < bufferSize := by decide

instance poolWF_decidable (p : List GoSlice) : Decidable (poolWF p) :=
  List.decidableBAll _ p

theorem releasedPool_props (p : List GoSlice) (bytes : List Nat) (hwf : poolWF p) :
    poolWF (releasedPool p bytes) ∧
      (releasedPool p bytes).length = (poolGet p).2.length + 1 := by
  cases p with
  | nil =>
    have hrep : (List.replicate bufferSize (0 : Nat)).length = bufferSize :=
      List.length_replicate ..
    have hc : releasedPool [] bytes =
        [⟨copyLoop (List.replicate bufferSize (0 : Nat)).length bytes.length bytes
          (List.replicate bufferSize 0), 0⟩] := by
      simp only [releasedPool, poolGet]
      rw [if_pos (by rw [hrep]; exact bufferSize_pos)]
    rw [hc]
    refine ⟨?_, rfl⟩
    intro b hb
    rw [List.mem_singleton] at hb
    subst hb
    refine ⟨rfl, ?_⟩
    rw [copyLoop_length _ _ _ _ (le_refl _), hrep]
  | cons b0 rest =>
    obtain ⟨hlen, hcap⟩ := hwf b0 (List.mem_cons_self ..)
    have hpos : 0 < b0.backing.length := by rw [hcap]; exact bufferSize_pos
    have hc : releasedPool (b0 :: rest) bytes =
        ⟨copyLoop b0.backing.length bytes.length bytes b0.backing, 0⟩ :: rest := by
      simp only [releasedPool, poolGet]
      rw [if_pos hpos]
    rw [hc]
    refine ⟨?_, rfl⟩
    intro b hb
    rcases List.mem_cons.mp hb with hb | hb
    · subst hb
      exact ⟨rfl, by rw [copyLoop_length _ _ _ _ (le_refl _)]; exact hcap⟩
    · exact hwf b (List.mem_cons_of_mem b0 hb)

theorem releasedPoolCC_props (p : List GoSlice) (bytes : List Nat) (hwf : poolWF p) :
    poolWF (releasedPoolCC p bytes) ∧
      (releasedPoolCC p bytes).length = (poolGet p).2.length + 1 := by
  cases p with
  | nil =>
    have hrep : (List.replicate bufferSize (0 : Nat)).length = bufferSize :=
      List.length_replicate ..
    have hc : releasedPoolCC [] bytes =
        [⟨copyLoop bufferSize bytes.length bytes (List.replicate bufferSize 0), 0⟩] := by
      simp only [releasedPoolCC, poolGet]
    rw [hc]
    refine ⟨?_, rfl⟩
    intro b hb
    rw [List.mem_singleton] at hb
    subst hb
    refine ⟨rfl, ?_⟩
    rw [copyLoop_length _ _ _ _ (by rw [hrep]), hrep]
  | cons b0 rest =>
    obtain ⟨hlen, hcap⟩ := hwf b0 (List.mem_cons_self ..)
    have hc : releasedPoolCC (b0 :: rest) bytes =
        ⟨copyLoop bufferSize bytes.length bytes b0.backing, 0⟩ :: rest := by
      simp only [releasedPoolCC, poolGet]
    rw [hc]
    refine ⟨?_, rfl⟩
    intro b hb
    rcases List.mem_cons.mp hb with hb | hb
    · subst hb
      refine ⟨rfl, ?_⟩
      rw [copyLoop_length _ _ _ _ (by rw [hcap])]
      exact hcap
    · exact hwf b (List.mem_cons_of_mem b0 hb)

namespace HC

/-- The pool effect of `Request.File`: one acquire, a chunked copy, and
one (guarded) release, whatever the read outcome. -/
theorem File_pool_eq (bnd : String) (r : Request) (f n d : String) (e : Option GoErr)
    (h0 : r.err = none) (hwb : r.multipart = true → r.writer.isSome ∧ r.buffer.isSome) :
    (Request.File bnd r f n d e).pool = releasedPool r.pool (strBytes d) := by
  unfold Request.File releasedPool
  cases hmp : r.multipart with
  | true =>
    obtain ⟨hw, hb⟩ := hwb hmp
    obtain ⟨w, hweq⟩ := Option.isSome_iff_exists.mp hw
    obtain ⟨buf, hbeq⟩ := Option.isSome_iff_exists.mp hb
    simp only [h0, Option.isSome_none, Bool.false_eq_true, if_false, hmp, if_true, hweq, hbeq]
    cases e <;> simp
  | false =>
    simp only [h0, Option.isSome_none, Bool.false_eq_true, if_false, hmp,
      Request.Multipart, if_true]
    cases e <;> simp

end HC

namespace CC

/-- The pool effect of config.go's `Client.File` on an already-multipart
client: one acquire, a chunked copy through a `bufferSize`-length scratch
slice, and one unconditional release. -/
theorem ClientFile_pool_eq (bnd : String) (r : Client) (f n d : String) (e : Option GoErr)
    (h0 : r.err = none) (hmp : r.multipart = true) (w : Gotenberg.Writer) (buf : String)
    (hw : r.writer = some w) (hb : r.buffer = some buf) :
    (Client.File bnd r f n d e).bufPool = releasedPoolCC r.bufPool (strBytes d) := by
  unfold Client.File releasedPoolCC
  simp only [h0, Option.isSome_none, Bool.false_eq_true, if_false, hmp, if_true, hw, hb]
  cases e <;> simp

theorem Header_bufPool (r : Client) (k v : String) : (r.Header k v).bufPool = r.bufPool := by
  unfold Client.Header; split <;> rfl

theorem csendFinalize_bufPool (r r1 : Client) (h : csendFinalize r = .ok r1) :
    r1.bufPool = r.bufPool := by
  unfold csendFinalize at h
  split at h
  · split at h
    · simp only [HC.closeWriter] at h
      injection h with h
      subst h
      rw [Header_bufPool, Header_bufPool]
    · injection h with h; subst h; rfl
  · injection h with h; subst h; rfl

end CC

/-- C7.  Buffer pool hygiene: a `File` call's streamed copy acquires one
scratch buffer and, whatever the read outcome (success or failure — the
release is deferred), returns it to the pool truncated to length zero
with its capacity preserved, so the whole free list stays well-formed and
grows back to acquire-count parity; consequently any subsequent acquire
from a well-formed pool observes a buffer of length zero (none of the
previously written bytes).  The same holds for config.go's per-client
pool in `Client.File`. -/
theorem C7_buffer_pool_hygiene :
    (∀ (bnd : String) (r : HC.Request) (f n d : String) (e : Option GoErr),
      r.err = none → (r.multipart = true → r.writer.isSome ∧ r.buffer.isSome) →
      poolWF r.pool →
      poolWF (HC.Request.File bnd r f n d e).pool ∧
        (HC.Request.File bnd r f n d e).pool.length = (poolGet r.pool).2.length + 1) ∧
    (∀ p, poolWF p → (poolGet p).1.len = 0 ∧ (poolGet p).1.view = []) ∧
    (∀ (bnd : String) (r : CC.Client) (f n d : String) (e : Option GoErr)
      (w : Gotenberg.Writer) (buf : String),
      r.err = none → r.multipart = true → r.writer = some w → r.buffer = some buf →
      poolWF r.bufPool →
      poolWF (CC.Client.File bnd r f n d e).bufPool ∧
        (CC.Client.File bnd r f n d e).bufPool.length =
          (poolGet r.bufPool).2.length + 1) := by
  refine ⟨?_, ?_, ?_⟩
  · intro bnd r f n d e h0 hwb hwf
    rw [HC.File_pool_eq bnd r f n d e h0 hwb]
    exact releasedPool_props r.pool (strBytes d) hwf
  · intro p hwf
    cases p with
    | nil => exact ⟨rfl, rfl⟩
    | cons b rest =>
      obtain ⟨hlen, _⟩ := hwf b (List.mem_cons_self ..)
      exact ⟨hlen, by simp [poolGet, GoSlice.view, hlen]⟩
  · intro bnd r f n d e w buf h0 hmp hw hb hwf
    rw [CC.ClientFile_pool_eq bnd r f n d e h0 hmp w buf hw hb]
    exact releasedPoolCC_props r.bufPool (strBytes d) hwf

/-- Witness for C7 at concrete states: a file write on an empty pool and
on a one-buffer pool, and a concrete acquire. -/
theorem C7_buffer_pool_hygiene_witness :
    (poolWF (HC.Request.File "b" (HC.mkRequest none) "f" "n" "hi" none).pool ∧
      (HC.Request.File "b" (HC.mkRequest none) "f" "n" "hi" none).pool.length =
        (poolGet (HC.mkRequest none).pool).2.length + 1) ∧
    ((poolGet []).1.len = 0 ∧ (poolGet ([] : List GoSlice)).1.view = []) ∧
    (poolWF (CC.Client.File "b" ⟨none, true, some ⟨"b", false⟩, some "", [], none⟩
        "f" "n" "hi" none).bufPool ∧
      (CC.Client.File "b" ⟨none, true, some ⟨"b", false⟩, some "", [], none⟩
        "f" "n" "hi" none).bufPool.length =
        (poolGet ([] : List GoSlice)).2.length + 1) :=
  ⟨C7_buffer_pool_hygiene.1 "b" (HC.mkRequest none) "f" "n" "hi" none rfl
      (by decide) (by decide),
    C7_buffer_pool_hygiene.2.1 [] (by decide),
    C7_buffer_pool_hygiene.2.2 "b" ⟨none, true, some ⟨"b", false⟩, some "", [], none⟩
      "f" "n" "hi" none ⟨"b", false⟩ "" rfl rfl rfl rfl (by decide)⟩

/-- C10.  Reset clears disposable state: after config.go's `Send`
(successful, transport-failed, or short-circuited on a deferred error —
the `defer r.Reset()` runs on every path), the deferred error slot is
empty, the multipart flag is false, the writer and the prepared request
are cleared, and the per-client buffer pool's free list is exactly what
it was before the Send (no buffer leaked, none returned twice). -/
theorem C10_reset_clears (trans : CC.Client → Except GoErr Nat) (r : CC.Client) :
    (CC.clientSend trans r).final.err = none ∧
    (CC.clientSend trans r).final.multipart = false ∧
    (CC.clientSend trans r).final.writer = none ∧
    (CC.clientSend trans r).final.request = none ∧
    (CC.clientSend trans r).final.bufPool = r.bufPool := by
  unfold CC.clientSend
  cases herr : r.err with
  | some e => simp [CC.Client.Reset]
  | none =>
    cases hfin : CC.csendFinalize r with
    | error e => simp [CC.Client.Reset]
    | ok r1 =>
      have hpool := CC.csendFinalize_bufPool r r1 hfin
      cases htr : trans r1 <;> simp [htr, CC.Client.Reset, hpool]

set_option maxRecDepth 10000 in
/-- C5.  Round-trip of the multipart payload: for the chain
`FormField "name" "value"` then `File "file" "upload.txt"` with content
"hello" and a representative generated boundary, the body that `Send`
finalizes and attaches parses back (with the compliant multipart reader
`parseFormData`) to exactly one form field "name" with value "value" and
one file part named "upload.txt" with content "hello", and the final
Content-Type header is the boundary-qualified value, which contains the
boundary token. -/
theorem C5_multipart_roundtrip :
    (multipartBody (HC.requestSend (fun _ => .ok 0)
        (HC.applyChain sampleBoundary
          [.formField "name" "value", .file "file" "upload.txt" "hello" none]
          (HC.mkRequest none))).final.body).bind
      (fun d => parseFormData sampleBoundary d) =
      some [⟨"name", none, "value"⟩, ⟨"file", some "upload.txt", "hello"⟩] ∧
    lookupKV (HC.requestSend (fun _ => .ok 0)
        (HC.applyChain sampleBoundary
          [.formField "name" "value", .file "file" "upload.txt" "hello" none]
          (HC.mkRequest none))).final.headers ContentType =
      some (formDataContentType sampleBoundary) ∧
    hasSub sampleBoundary.toList (formDataContentType sampleBoundary).toList = true := by
  refine ⟨by decide, by decide, by decide⟩

end Gotenberg
